import Mathlib

/-!
Verification of the request-signing and parameter-marshalling layer of the
`kayako` API wrapper (`kayako/api.py`).  The Python communication-layer
functions (`_sanitize_parameter`, `_sanitize_parameters`, `_post_data`,
`_generate_signature`, `_request`, `_match_filter`, `filter`, `first`,
`__init__`) are embedded as executable Lean definitions, and the claimed
properties of the wire protocol are proved about those definitions.
-/

namespace Kayako

/-! ## Byte-level string helpers -/

/-- UTF-8 encoding of a single character, as a list of byte values.
Mirrors the encoding Python applies inside `urllib.parse.quote`. -/
def utf8Bytes (c : Char) : List Nat :=
  let n := c.toNat
  if n < 0x80 then [n]
  else if n < 0x800 then
    [0xC0 ||| (n >>> 6), 0x80 ||| (n &&& 0x3F)]
  else if n < 0x10000 then
    [0xE0 ||| (n >>> 12), 0x80 ||| ((n >>> 6) &&& 0x3F), 0x80 ||| (n &&& 0x3F)]
  else
    [0xF0 ||| (n >>> 18), 0x80 ||| ((n >>> 12) &&& 0x3F),
     0x80 ||| ((n >>> 6) &&& 0x3F), 0x80 ||| (n &&& 0x3F)]

/-- UTF-8 encoding of a string as a list of byte values. -/
def stringBytes (s : String) : List Nat :=
  (s.data.map utf8Bytes).flatten

/-- Byte encoding under Python's `str.encode("ascii")`, which is what
`_generate_signature` applies to the secret key and the salt.  It agrees
with UTF-8 on ASCII strings; for non-ASCII input the Python call raises,
so theorems about it carry an ASCII hypothesis. -/
def asciiBytes (s : String) : List Nat :=
  s.data.map Char.toNat

/-- A string is ASCII when all its characters are below 128. -/
def isAsciiString (s : String) : Bool :=
  s.data.all (fun c => c.toNat < 128)

/-- Upper-case hexadecimal digit for a value below 16, as used by
`urllib.parse.quote` when percent-escaping a byte. -/
def hexUpper (n : Nat) : Char :=
  if n < 10 then Char.ofNat (48 + n) else Char.ofNat (55 + n)

/-- Characters `urllib.parse.quote` leaves unescaped with its default
`safe='/'`: ASCII letters, digits, `_`, `.`, `-`, `~`, and `/`. -/
def quoteSafeByte (b : Nat) : Bool :=
  (65 ≤ b && b ≤ 90) || (97 ≤ b && b ≤ 122) || (48 ≤ b && b ≤ 57) ||
  b == 95 || b == 46 || b == 45 || b == 126 || b == 47

/-- Percent-encoding of a single byte, following `urllib.parse.quote`. -/
def quoteByte (b : Nat) : String :=
  if quoteSafeByte b then String.singleton (Char.ofNat b)
  else String.singleton '%' ++ String.singleton (hexUpper (b / 16)) ++
       String.singleton (hexUpper (b % 16))

/-- Embedding of `urllib.parse.quote(s)` with the default `safe='/'`:
UTF-8 encode, then percent-escape every unsafe byte. -/
def quote (s : String) : String :=
  String.join ((stringBytes s).map quoteByte)

/-! ## The value domain of `_sanitize_parameter` -/

/-- In-memory parameter values handled by `KayakoAPI._sanitize_parameter`.
`forever` is the `FOREVER` sentinel from `kayako.core.lib` (that module is
imported by `api.py`; the sentinel is a distinguished object that the
sanitizer alone inspects).  `date t` is a `datetime` value carrying `t`,
the local-time Unix timestamp that `time.mktime(value.timetuple())` would
produce for it.  `int n` covers the remaining scalars, which Python
converts with `str()`. -/
inductive Value where
  | null
  | forever
  | bool (b : Bool)
  | date (t : Int)
  | str (s : String)
  | int (n : Int)
  | list (xs : List Value)

/-- Wire form produced by the sanitizer: a string, or a (possibly nested)
list of wire values. -/
inductive Wire where
  | str (s : String)
  | list (xs : List Wire)

/-- The element test `item not in ["", None]` from the list branch of
`_sanitize_parameter`, under Python `==` semantics on this value domain:
only `None` and the empty string compare equal to a member of that list. -/
def isDroppedElem : Value → Bool
  | .null => true
  | .str s => s == ""
  | _ => false

mutual

/-- Embedding of `KayakoAPI._sanitize_parameter`.  The cases follow the
source's `if`/`elif` chain in order: `None`, `FOREVER`, `True`, `False`,
`datetime`, list/tuple/set, and the final `str(parameter)` fallback. -/
def sanitize : Value → Wire
  | .null => .str ""
  | .forever => .str "0"
  | .bool true => .str "1"
  | .bool false => .str "0"
  | .date t => .str (toString t)
  | .list xs => .list (sanitizeElems xs)
  | .str s => .str s
  | .int n => .str (toString n)

/-- The list comprehension from the list branch of `_sanitize_parameter`:
sanitize each element whose raw value is not `""` or `None`. -/
def sanitizeElems : List Value → List Wire
  | [] => []
  | x :: rest =>
    if isDroppedElem x then sanitizeElems rest
    else sanitize x :: sanitizeElems rest

end

/-- Embedding of `KayakoAPI._sanitize_parameters`: sanitize each value of
the parameter mapping, keeping iteration order. -/
def sanitize_parameters (ps : List (String × Value)) : List (String × Wire) :=
  ps.map (fun kv => (kv.1, sanitize kv.2))

/-! ## SHA-256, HMAC, and base64

`_generate_signature` calls `hmac.new(secret_key, msg=salt, digestmod=hashlib.sha256)`
and `base64.b64encode`.  These primitives are implemented here so the
signature computation is fully executable.  Words are `Nat` reduced
modulo `2 ^ 32`. -/

/-- Truncation to a 32-bit word. -/
def w32 (n : Nat) : Nat := n % 4294967296

/-- Right rotation of a 32-bit word. -/
def rotWord (x n : Nat) : Nat := w32 ((x >>> n) ||| (x <<< (32 - n)))

/-- The SHA-256 `Ch` function; bitwise not is xor with the 32-bit mask. -/
def shaCh (x y z : Nat) : Nat := (x &&& y) ^^^ ((x ^^^ 0xFFFFFFFF) &&& z)

/-- The SHA-256 `Maj` function. -/
def shaMaj (x y z : Nat) : Nat := (x &&& y) ^^^ (x &&& z) ^^^ (y &&& z)

/-- The SHA-256 upper-case sigma-0 function. -/
def sumA (x : Nat) : Nat := rotWord x 2 ^^^ rotWord x 13 ^^^ rotWord x 22

/-- The SHA-256 upper-case sigma-1 function. -/
def sumE (x : Nat) : Nat := rotWord x 6 ^^^ rotWord x 11 ^^^ rotWord x 25

/-- The SHA-256 lower-case sigma-0 function. -/
def sigA (x : Nat) : Nat := rotWord x 7 ^^^ rotWord x 18 ^^^ (x >>> 3)

/-- The SHA-256 lower-case sigma-1 function. -/
def sigE (x : Nat) : Nat := rotWord x 17 ^^^ rotWord x 19 ^^^ (x >>> 10)

/-- The 64 SHA-256 round constants (FIPS 180-4, written in decimal). -/
def shaK : List Nat :=
  [1116352408, 1899447441, 3049323471, 3921009573, 961987163, 1508970993,
   2453635748, 2870763221, 3624381080, 310598401, 607225278, 1426881987,
   1925078388, 2162078206, 2614888103, 3248222580, 3835390401, 4022224774,
   264347078, 604807628, 770255983, 1249150122, 1555081692, 1996064986,
   2554220882, 2821834349, 2952996808, 3210313671, 3336571891, 3584528711,
   113926993, 338241895, 666307205, 773529912, 1294757372, 1396182291,
   1695183700, 1986661051, 2177026350, 2456956037, 2730485921, 2820302411,
   3259730800, 3345764771, 3516065817, 3600352804, 4094571909, 275423344,
   430227734, 506948616, 659060556, 883997877, 958139571, 1322822218,
   1537002063, 1747873779, 1955562222, 2024104815, 2227730452, 2361852424,
   2428436474, 2756734187, 3204031479, 3329325298]

/-- The SHA-256 initial hash state (FIPS 180-4, written in decimal). -/
def shaH0 : List Nat :=
  [1779033703, 3144134277, 1013904242, 2773480762,
   1359893119, 2600822924, 528734635, 1541459225]

/-- Split a list into chunks of size `n + 1`, with explicit fuel so the
recursion is structural and kernel-reducible. -/
def chunksFuel (n : Nat) : Nat → List α → List (List α)
  | 0, _ => []
  | _, [] => []
  | fuel + 1, x :: rest => ((x :: rest).take (n + 1)) :: chunksFuel n fuel (rest.drop n)

/-- Split a list into chunks of size `n + 1`. -/
def chunksAux (n : Nat) (l : List α) : List (List α) :=
  chunksFuel n l.length l

/-- Big-endian word value of a list of bytes. -/
def beWord (bytes : List Nat) : Nat := bytes.foldl (fun acc b => acc * 256 + b) 0

/-- The four big-endian bytes of a 32-bit word. -/
def wordBytes (w : Nat) : List Nat :=
  [(w >>> 24) &&& 255, (w >>> 16) &&& 255, (w >>> 8) &&& 255, w &&& 255]

/-- The eight big-endian bytes of a 64-bit length field. -/
def be64Bytes (n : Nat) : List Nat :=
  [(n >>> 56) &&& 255, (n >>> 48) &&& 255, (n >>> 40) &&& 255, (n >>> 32) &&& 255,
   (n >>> 24) &&& 255, (n >>> 16) &&& 255, (n >>> 8) &&& 255, n &&& 255]

/-- SHA-256 message padding: `0x80`, zeros to 56 mod 64, then the bit
length as eight big-endian bytes. -/
def shaPad (msg : List Nat) : List Nat :=
  msg ++ [0x80] ++ List.replicate ((119 - (msg.length % 64)) % 64) 0 ++
    be64Bytes (msg.length * 8)

/-- One message-schedule extension step, appending word `W[t]`. -/
def scheduleStep (w : List Nat) : List Nat :=
  w ++ [w32 (sigE (w.getD (w.length - 2) 0) + w.getD (w.length - 7) 0 +
             sigA (w.getD (w.length - 15) 0) + w.getD (w.length - 16) 0)]

/-- Iterate the message-schedule extension. -/
def extendSchedule : Nat → List Nat → List Nat
  | 0, w => w
  | n + 1, w => extendSchedule n (scheduleStep w)

/-- One SHA-256 compression round on the eight-word working state; `wk`
is the pair of schedule word and round constant. -/
def roundStep (st : List Nat) (wk : Nat × Nat) : List Nat :=
  match st with
  | [a, b, c, d, e, f, g, h] =>
    let t1 := w32 (h + sumE e + shaCh e f g + wk.2 + wk.1)
    let t2 := w32 (sumA a + shaMaj a b c)
    [w32 (t1 + t2), a, b, c, w32 (d + t1), e, f, g]
  | other => other

/-- SHA-256 compression of one 16-word block into the hash state. -/
def sha256Compress (h : List Nat) (block : List Nat) : List Nat :=
  let ws := extendSchedule 48 block
  let fin := (ws.zip shaK).foldl roundStep h
  (h.zip fin).map (fun p => w32 (p.1 + p.2))

/-- SHA-256 of a byte list, as a list of 32 bytes. -/
def sha256 (msg : List Nat) : List Nat :=
  let blocks := (chunksAux 63 (shaPad msg)).map (fun b => (chunksAux 3 b).map beWord)
  ((blocks.foldl sha256Compress shaH0).map wordBytes).flatten

/-- HMAC-SHA256 with a 64-byte block size, following RFC 2104 and hence
Python's `hmac.new(key, msg, hashlib.sha256).digest()`. -/
def hmacSha256 (key msg : List Nat) : List Nat :=
  let k0 := if 64 < key.length then sha256 key else key
  let kpad := k0 ++ List.replicate (64 - k0.length) 0
  sha256 ((kpad.map (fun b => b ^^^ 0x5C)) ++ sha256 ((kpad.map (fun b => b ^^^ 0x36)) ++ msg))

/-- The base64 alphabet. -/
def base64Char (n : Nat) : Char :=
  if n < 26 then Char.ofNat (65 + n)
  else if n < 52 then Char.ofNat (97 + (n - 26))
  else if n < 62 then Char.ofNat (48 + (n - 52))
  else if n = 62 then '+'
  else '/'

/-- Standard base64 encoding of a byte list with `=` padding, following
`base64.b64encode`. -/
def base64Encode : List Nat → String
  | [] => ""
  | [a] =>
    ⟨[base64Char (a >>> 2), base64Char ((a &&& 3) <<< 4), '=', '=']⟩
  | [a, b] =>
    ⟨[base64Char (a >>> 2), base64Char (((a &&& 3) <<< 4) ||| (b >>> 4)),
      base64Char ((b &&& 15) <<< 2), '=']⟩
  | a :: b :: c :: rest =>
    String.mk [base64Char (a >>> 2), base64Char (((a &&& 3) <<< 4) ||| (b >>> 4)),
               base64Char (((b &&& 15) <<< 2) ||| (c >>> 6)), base64Char (c &&& 63)] ++
    base64Encode rest

/-! ## The form encoder `_post_data` -/

/-- Rendering of Python's `"%s" % data` where `data` is an optional
string that starts out as `None`. -/
def showData : Option String → String
  | none => "None"
  | some s => s

/-- Applying `urllib.parse.quote` to a wire value: quoting a string
succeeds, quoting a nested list raises `TypeError` in Python, which the
embedding reports as `none`. -/
def quoteWire : Wire → Option String
  | .str s => some (quote s)
  | .list _ => none

/-- One iteration of the inner `for sub_value in value` loop of
`_post_data`.  The state is the pair of the accumulated `data` and the
`first` flag. -/
def postDataSub (key : String) (st : Option String × Bool) (sub : Wire) :
    Option (Option String × Bool) :=
  match quoteWire sub with
  | none => none
  | some q =>
    if st.2 then some (some (key ++ "[]=" ++ q), false)
    else some (some (showData st.1 ++ "&" ++ key ++ "[]=" ++ q), false)

/-- One iteration of the outer `for key, value in parameters.items()`
loop of `_post_data`, covering the list branch (non-empty and empty) and
the scalar branch. -/
def postDataField (st : Option String × Bool) (key : String) (v : Wire) :
    Option (Option String × Bool) :=
  match v with
  | .list subs =>
    if subs.isEmpty then
      if st.2 then some (some (key ++ "[]="), false)
      else some (some (showData st.1 ++ "&" ++ key ++ "[]="), false)
    else subs.foldlM (postDataSub key) st
  | .str s =>
    if st.2 then some (some (key ++ "=" ++ quote s), false)
    else some (some (showData st.1 ++ "&" ++ key ++ "=" ++ quote s), false)

/-- Embedding of `KayakoAPI._post_data`.  The outer `Option` is Python
definedness (a `TypeError` from quoting a nested list yields `none`); the
inner `Option` is the returned `data`, which stays `None` for an empty
parameter mapping. -/
def post_data (ps : List (String × Wire)) : Option (Option String) :=
  (ps.foldlM (fun st kv => postDataField st kv.1 kv.2) ((none : Option String), true)).map
    Prod.fst

/-! ## Credentials, signing, and `_request` -/

/-- The exception kinds the embedded layer can raise.  The first two are
`KayakoInitializationError` and `KayakoRequestError` from
`kayako.exception`; `typeError` stands for a Python-level `TypeError`
escaping `urllib.parse.quote`. -/
inductive KayakoError where
  | initializationError (msg : String)
  | requestError (msg : String)
  | typeError
deriving DecidableEq, Repr

/-- The credential state of a constructed `KayakoAPI` instance. -/
structure KayakoAPI where
  api_url : String
  api_key : String
  secret_key : String
deriving DecidableEq, Repr

/-- Embedding of `KayakoAPI.__init__`: each falsy credential raises
`KayakoInitializationError`, in source order; otherwise the instance
holds the three values (the source assigns `self.secret_key` and
`self.api_key` in swapped positions, but each from the right argument). -/
def KayakoAPI.init (api_url api_key secret_key : String) :
    Except KayakoError KayakoAPI :=
  if api_url = "" then .error (.initializationError "API URL not specified.")
  else if api_key = "" then .error (.initializationError "API Key not specified.")
  else if secret_key = "" then .error (.initializationError "Secret Key not specified.")
  else .ok { api_url := api_url, api_key := api_key, secret_key := secret_key }

/-- Embedding of `KayakoAPI._generate_signature`.  The randomness is the
value `r` drawn by `random.getrandbits(32)` on this call; the salt is its
decimal string and the signature is the base64 HMAC-SHA256 of the salt
under the secret key (both encoded as ASCII). -/
def generate_signature (secret_key : String) (r : Nat) : String × String :=
  let salt := Nat.repr r
  (salt, base64Encode (hmacSha256 (asciiBytes secret_key) (asciiBytes salt)))

/-- The HTTP call `_request` hands to `urllib3`: the verb, the full URL,
the value of the `Content-length` header, and the transmitted body.  The
source never passes a body to `self.http.request`, so `body` records
what is actually sent. -/
structure HttpRequest where
  method : String
  url : String
  contentLength : Nat
  body : Option String
deriving DecidableEq, Repr

/-- Python dict assignment `d[k] = v` on an association list: replace in
place when the key exists, append otherwise. -/
def dictSet (ps : List (String × Value)) (k : String) (v : Value) :
    List (String × Value) :=
  if ps.any (fun kv => kv.1 = k) then
    ps.map (fun kv => if kv.1 = k then (k, v) else kv)
  else ps ++ [(k, v)]

/-- Python truthiness of the optional `data` string. -/
def dataTruthy : Option String → Bool
  | none => false
  | some s => s != ""

/-- The `Content-length` header value `len(data) if data else 0`. -/
def contentLengthOf : Option String → Nat
  | none => 0
  | some s => if s != "" then s.length else 0

/-- Embedding of `KayakoAPI._request`.  `r` is the randomness drawn by
this call's `_generate_signature`.  The result is the issued HTTP call,
or the exception raised before any network I/O. -/
def KayakoAPI.request (api : KayakoAPI) (controller method : String)
    (parameters : List (String × Value)) (r : Nat) :
    Except KayakoError HttpRequest :=
  let saltsig := generate_signature api.secret_key r
  let url_get := api.api_url ++ "?e=" ++ quote controller ++ "&apikey=" ++ api.api_key ++
    "&salt=" ++ saltsig.1 ++ "&signature=" ++ saltsig.2
  if method = "GET" then
    match (if parameters.isEmpty then some none
           else post_data (sanitize_parameters parameters)) with
    | none => .error .typeError
    | some data =>
      let url := if dataTruthy data then url_get ++ "&" ++ showData data else url_get
      .ok { method := method, url := url, contentLength := contentLengthOf data,
            body := none }
  else if method = "POST" ∨ method = "PUT" then
    let url := api.api_url ++ "?e=" ++ quote controller
    let parameters :=
      dictSet (dictSet (dictSet parameters "apikey" (.str api.api_key))
        "salt" (.str saltsig.1)) "signature" (.str saltsig.2)
    match post_data (sanitize_parameters parameters) with
    | none => .error .typeError
    | some data =>
      .ok { method := method, url := url, contentLength := contentLengthOf data,
            body := none }
  else if method = "DELETE" then
    match post_data (sanitize_parameters parameters) with
    | none => .error .typeError
    | some data =>
      .ok { method := method, url := url_get, contentLength := contentLengthOf data,
            body := none }
  else
    .error (.requestError ("Invalid request method: " ++ method ++ " not supported."))

/-- The body actually transmitted by a `_request` outcome: the body of
the issued call, or nothing when an exception was raised first. -/
def sentBody (res : Except KayakoError HttpRequest) : Option String :=
  match res with
  | .ok q => q.body
  | .error _ => none

/-! ## The façade query helpers `_match_filter`, `filter`, `first` -/

/-- An attribute value of an entity instance as `_match_filter` sees it:
either a plain value or a list of values. -/
inductive FVal (α : Type) where
  | atom (a : α)
  | list (xs : List α)

/-- Embedding of `KayakoAPI._match_filter`: every predicate pair must
hold, where a list-valued attribute matches by membership and any other
attribute by equality. -/
def match_filter {α : Type} [DecidableEq α] (obj : String → FVal α)
    (preds : List (String × α)) : Bool :=
  preds.all (fun kv =>
    match obj kv.1 with
    | .list xs => decide (kv.2 ∈ xs)
    | .atom a => decide (a = kv.2))

/-- Embedding of `KayakoAPI.filter`, applied to the list `get_all`
returned: keep the matching instances in order. -/
def api_filter {α : Type} [DecidableEq α] (objects : List (String → FVal α))
    (preds : List (String × α)) : List (String → FVal α) :=
  objects.filter (fun o => match_filter o preds)

/-- Embedding of `KayakoAPI.first`, applied to the list `get_all`
returned: the first matching instance, or `none` (Python's implicit
`None`) when no instance matches. -/
def api_first {α : Type} [DecidableEq α] :
    List (String → FVal α) → List (String × α) → Option (String → FVal α)
  | [], _ => none
  | o :: rest, preds =>
    if match_filter o preds then some o else api_first rest preds

/-! ## Auxiliary notions used to state the claims -/

mutual

/-- View a wire value back as an in-memory value, for restating the
sanitizer on its own output. -/
def wireToValue : Wire → Value
  | .str s => .str s
  | .list xs => .list (wireListToValue xs)

/-- Elementwise `wireToValue`. -/
def wireListToValue : List Wire → List Value
  | [] => []
  | w :: rest => wireToValue w :: wireListToValue rest

end

/-- Whether a value sanitizes to the empty string. -/
def sanitizesToEmpty (v : Value) : Bool :=
  match sanitize v with
  | .str s => s == ""
  | .list _ => false

/-- Whether a wire value is a plain string. -/
def Wire.isStr : Wire → Bool
  | .str _ => true
  | .list _ => false

/-- A wire value is flat when it is a string or a list of strings — the
domain the request-encoder contract is stated over. -/
def Wire.flat : Wire → Bool
  | .str _ => true
  | .list xs => xs.all Wire.isStr

/-- Whether an in-memory value is a list/tuple/set. -/
def Value.isList : Value → Bool
  | .list _ => true
  | _ => false

/-- An in-memory parameter value is flat when it is a scalar or a
list of scalars; such values sanitize to flat wire values. -/
def Value.paramFlat : Value → Bool
  | .list xs => xs.all (fun v => ! v.isList)
  | _ => true

/-- Join fields with `&` and no leading or trailing separator. -/
def joinAmp : List String → String
  | [] => ""
  | [a] => a
  | a :: rest => a ++ "&" ++ joinAmp rest

/-- The percent-encoding of a flat list element (nested lists do not
occur under the flatness hypotheses). -/
def quoteFlat : Wire → String
  | .str s => quote s
  | .list _ => ""

/-- The encoded text of a single field, as the claims describe it:
`key=value` for scalars, repeated `key[]=value` for non-empty lists, and
a single `key[]=` for empty lists. -/
def fieldStr (kv : String × Wire) : String :=
  match kv.2 with
  | .str s => kv.1 ++ "=" ++ quote s
  | .list [] => kv.1 ++ "[]="
  | .list xs => joinAmp (xs.map (fun w => kv.1 ++ "[]=" ++ quoteFlat w))

/-! ## Lemmas about decimal representations -/

theorem toDigitsCore_le_length (b : Nat) :
    ∀ (f n : Nat) (ds : List Char), ds.length ≤ (Nat.toDigitsCore b f n ds).length := by
  intro f
  induction f with
  | zero => intro n ds; simp [Nat.toDigitsCore]
  | succ f ih =>
    intro n ds
    simp only [Nat.toDigitsCore]
    split
    · simp
    · exact Nat.le_trans (Nat.le_succ _) (ih (n / b) ((n % b).digitChar :: ds))

theorem natRepr_data_ne_nil (n : Nat) : (Nat.repr n).data ≠ [] := by
  show (Nat.toDigits 10 n).asString.data ≠ []
  have h : 1 ≤ (Nat.toDigits 10 n).length := by
    show 1 ≤ (Nat.toDigitsCore 10 (n + 1) n []).length
    simp only [Nat.toDigitsCore]
    split
    · simp
    · exact Nat.le_trans (by simp) (toDigitsCore_le_length 10 _ _ _)
  intro hcontra
  have : (Nat.toDigits 10 n).length = 0 := by
    have : (Nat.toDigits 10 n).asString.data = Nat.toDigits 10 n := rfl
    rw [this] at hcontra
    simp [hcontra]
  omega

theorem natRepr_ne_empty (n : Nat) : Nat.repr n ≠ "" := by
  intro h
  exact natRepr_data_ne_nil n (congrArg String.data h)

theorem intToString_ne_empty (i : Int) : toString i ≠ "" := by
  cases i with
  | ofNat m => exact natRepr_ne_empty m
  | negSucc m =>
    show "-" ++ toString (m + 1) ≠ ""
    intro h
    have := congrArg String.data h
    simp [String.data_append] at this

/-! ## Lemmas about the sanitizer -/

theorem sanitizesToEmpty_eq_isDroppedElem (v : Value) :
    sanitizesToEmpty v = isDroppedElem v := by
  cases v with
  | null => rfl
  | forever => rfl
  | bool b => cases b <;> rfl
  | date t =>
    simp only [sanitizesToEmpty, sanitize, isDroppedElem]
    have := intToString_ne_empty t
    simp [this]
  | str s => rfl
  | int n =>
    simp only [sanitizesToEmpty, sanitize, isDroppedElem]
    have := intToString_ne_empty n
    simp [this]
  | list xs => rfl

theorem sanitizeElems_eq_filter (xs : List Value) :
    sanitizeElems xs = (xs.filter (fun x => ! isDroppedElem x)).map sanitize := by
  induction xs with
  | nil => rfl
  | cons x rest ih =>
    by_cases h : isDroppedElem x = true
    · simp [sanitizeElems, h, List.filter, ih]
    · simp only [Bool.not_eq_true] at h
      simp [sanitizeElems, h, List.filter, ih]

/-- C5: scalar sanitization outputs.  `None` maps to the empty string,
the `FOREVER` sentinel to `"0"`, booleans to `"1"`/`"0"`, a date/time
value to the decimal string of its local-time Unix timestamp, and any
other scalar to its default string representation; the function is total
on the value domain. -/
theorem sanitize_scalar_outputs :
    sanitize .null = .str "" ∧
    sanitize .forever = .str "0" ∧
    sanitize (.bool true) = .str "1" ∧
    sanitize (.bool false) = .str "0" ∧
    (∀ t : Int, sanitize (.date t) = .str (toString t)) ∧
    (∀ s : String, sanitize (.str s) = .str s) ∧
    (∀ n : Int, sanitize (.int n) = .str (toString n)) ∧
    (∀ v : Value, ∃ w : Wire, sanitize v = w) :=
  ⟨rfl, rfl, rfl, rfl, fun _ => rfl, fun _ => rfl, fun _ => rfl, fun v => ⟨sanitize v, rfl⟩⟩

/-- C6: sanitizing a list applies the sanitization rules elementwise,
drops exactly the elements that sanitize to the empty string, preserves
the order of the remaining elements, and maps the empty list to the
empty list. -/
theorem sanitize_list_drops_empty :
    (∀ xs : List Value,
      sanitize (.list xs) =
        .list ((xs.filter (fun x => ! sanitizesToEmpty x)).map sanitize)) ∧
    sanitize (.list []) = .list [] := by
  refine ⟨fun xs => ?_, rfl⟩
  show Wire.list (sanitizeElems xs) = _
  rw [sanitizeElems_eq_filter]
  congr 1
  congr 1
  exact List.filter_congr (fun x _ => by rw [sanitizesToEmpty_eq_isDroppedElem])

theorem isDroppedElem_wire_sanitize (x : Value) (h : isDroppedElem x = false) :
    isDroppedElem (wireToValue (sanitize x)) = false := by
  have hs := sanitizesToEmpty_eq_isDroppedElem x
  rw [h] at hs
  unfold sanitizesToEmpty at hs
  cases hsx : sanitize x with
  | str s =>
    rw [hsx] at hs
    simp only [wireToValue, isDroppedElem]
    exact hs
  | list ws => simp [wireToValue, isDroppedElem]

mutual

theorem sanitize_round : ∀ v : Value, sanitize (wireToValue (sanitize v)) = sanitize v
  | .null => rfl
  | .forever => rfl
  | .bool true => rfl
  | .bool false => rfl
  | .date _ => rfl
  | .str _ => rfl
  | .int _ => rfl
  | .list xs => by
    show Wire.list (sanitizeElems (wireListToValue (sanitizeElems xs))) =
      Wire.list (sanitizeElems xs)
    rw [sanitizeElems_round xs]

theorem sanitizeElems_round :
    ∀ xs : List Value, sanitizeElems (wireListToValue (sanitizeElems xs)) = sanitizeElems xs
  | [] => rfl
  | x :: rest => by
    by_cases h : isDroppedElem x = true
    · simp only [sanitizeElems, h, if_pos]
      exact sanitizeElems_round rest
    · rw [Bool.not_eq_true] at h
      simp only [sanitizeElems, h, Bool.false_eq_true, if_neg, wireListToValue,
        isDroppedElem_wire_sanitize x h]
      rw [sanitize_round x, sanitizeElems_round rest]

end

/-- C10: sanitization is idempotent — re-sanitizing the wire form of a
sanitized value yields the same wire form — and already-sanitized wire
values (strings, and lists of non-empty strings) pass through the
sanitizer unchanged. -/
theorem sanitize_idempotent :
    (∀ v : Value, sanitize (wireToValue (sanitize v)) = sanitize v) ∧
    (∀ s : String, sanitize (.str s) = .str s) ∧
    (∀ xs : List String, (∀ s ∈ xs, s ≠ "") →
      sanitize (.list (xs.map .str)) = .list (xs.map .str)) := by
  refine ⟨sanitize_round, fun _ => rfl, fun xs h => ?_⟩
  show Wire.list (sanitizeElems (xs.map .str)) = _
  congr 1
  induction xs with
  | nil => rfl
  | cons s rest ih =>
    have hs : s ≠ "" := h s (by simp)
    simp only [List.map_cons, sanitizeElems, isDroppedElem, sanitize]
    rw [if_neg (by simpa using hs)]
    rw [ih (fun t ht => h t (by simp [ht]))]

/-- Witness for the idempotence claim at a concrete sanitized list. -/
theorem sanitize_idempotent_at_list :
    (∀ s ∈ (["a", "b"] : List String), s ≠ "") ∧
    sanitize (.list ((["a", "b"] : List String).map .str)) =
      .list ((["a", "b"] : List String).map Wire.str) :=
  ⟨by decide, sanitize_idempotent.2.2 ["a", "b"] (by decide)⟩

/-! ## Claims about `_request` -/

/-- C1 (divergence witness): no call to `_request` ever transmits a
request body — the encoded parameters are computed and measured for the
`Content-length` header, but `self.http.request` is invoked without a
body argument, for every method. -/
theorem request_body_never_sent (api : KayakoAPI) (controller method : String)
    (ps : List (String × Value)) (r : Nat) :
    sentBody (api.request controller method ps r) = none := by
  unfold KayakoAPI.request
  dsimp only
  split
  · split <;> rfl
  · split
    · split <;> rfl
    · split
      · split <;> rfl
      · rfl

/-- C8: any method other than GET, POST, PUT, and DELETE is rejected
with `KayakoRequestError` naming the method, and no HTTP call is issued. -/
theorem invalid_method_rejected (api : KayakoAPI) (controller method : String)
    (ps : List (String × Value)) (r : Nat)
    (h : method ∉ (["GET", "POST", "PUT", "DELETE"] : List String)) :
    api.request controller method ps r =
      .error (.requestError ("Invalid request method: " ++ method ++ " not supported.")) ∧
    ∀ q : HttpRequest, api.request controller method ps r ≠ .ok q := by
  have h1 : ¬ method = "GET" := fun e => h (by simp [e])
  have h2 : ¬ (method = "POST" ∨ method = "PUT") := by
    rintro (e | e) <;> exact h (by simp [e])
  have h3 : ¬ method = "DELETE" := fun e => h (by simp [e])
  have hmain : api.request controller method ps r =
      .error (.requestError ("Invalid request method: " ++ method ++ " not supported.")) := by
    unfold KayakoAPI.request
    rw [if_neg h1, if_neg h2, if_neg h3]
  exact ⟨hmain, fun q hq => by rw [hmain] at hq; cases hq⟩

/-- A concrete client instance used by the witnesses. -/
def apiEx : KayakoAPI :=
  { api_url := "http://example.com/api/index.php",
    api_key := "abc3r4f-alskcv3-kvj4",
    secret_key := "secret" }

/-- Witness: the PATCH method is rejected before any I/O. -/
theorem invalid_method_rejected_at_patch :
    ("PATCH" ∉ (["GET", "POST", "PUT", "DELETE"] : List String)) ∧
    apiEx.request "/Base/Department" "PATCH" [] 0 =
      .error (.requestError ("Invalid request method: " ++ "PATCH" ++ " not supported.")) :=
  ⟨by decide,
   (invalid_method_rejected apiEx "/Base/Department" "PATCH" [] 0 (by decide)).1⟩

/-- C9: construction fails with `KayakoInitializationError` whenever one
of the three credentials is empty, in source order, and otherwise yields
an instance holding exactly the three values passed in. -/
theorem init_requires_credentials (u k s : String) :
    (u = "" → KayakoAPI.init u k s = .error (.initializationError "API URL not specified.")) ∧
    (u ≠ "" → k = "" →
      KayakoAPI.init u k s = .error (.initializationError "API Key not specified.")) ∧
    (u ≠ "" → k ≠ "" → s = "" →
      KayakoAPI.init u k s = .error (.initializationError "Secret Key not specified.")) ∧
    (u ≠ "" → k ≠ "" → s ≠ "" →
      KayakoAPI.init u k s = .ok { api_url := u, api_key := k, secret_key := s }) := by
  refine ⟨fun h1 => by simp [KayakoAPI.init, h1],
    fun h1 h2 => by simp [KayakoAPI.init, h1, h2],
    fun h1 h2 h3 => by simp [KayakoAPI.init, h1, h2, h3],
    fun h1 h2 h3 => by simp [KayakoAPI.init, h1, h2, h3]⟩

/-- Witness: empty URL is rejected; full credentials are stored. -/
theorem init_requires_credentials_at :
    KayakoAPI.init "" "k" "s" = .error (.initializationError "API URL not specified.") ∧
    KayakoAPI.init "http://h/api" "k" "s" =
      .ok { api_url := "http://h/api", api_key := "k", secret_key := "s" } :=
  ⟨(init_requires_credentials "" "k" "s").1 rfl,
   (init_requires_credentials "http://h/api" "k" "s").2.2.2
     (by decide) (by decide) (by decide)⟩

/-! ## Claims about `filter` and `first` -/

/-- C7: `filter` keeps exactly the instances matching every predicate
pair (equality, or membership for list-valued attributes), in the
original order, and `first` returns the head of that sequence or `none`
when nothing matches. -/
theorem filter_first_semantics {α : Type} [DecidableEq α]
    (objects : List (String → FVal α)) (preds : List (String × α)) :
    api_filter objects preds = objects.filter (fun o => match_filter o preds) ∧
    (∀ o, o ∈ api_filter objects preds → match_filter o preds = true) ∧
    (∀ o, o ∈ objects → match_filter o preds = true → o ∈ api_filter objects preds) ∧
    (api_filter objects preds).Sublist objects ∧
    (∀ o, match_filter o preds = true ↔
      ∀ kv ∈ preds,
        (match o kv.1 with
         | .list xs => kv.2 ∈ xs
         | .atom a => a = kv.2)) ∧
    api_first objects preds = (api_filter objects preds).head? := by
  refine ⟨rfl, fun o ho => (List.mem_filter.mp ho).2,
    fun o ho hm => List.mem_filter.mpr ⟨ho, hm⟩, List.filter_sublist _, fun o => ?_, ?_⟩
  · rw [match_filter, List.all_eq_true]
    refine ⟨fun h kv hkv => ?_, fun h kv hkv => ?_⟩
    · have := h kv hkv
      revert this
      cases o kv.1 <;> simp
    · have := h kv hkv
      revert this
      cases o kv.1 <;> simp
  · induction objects with
    | nil => rfl
    | cons o rest ih =>
      by_cases h : match_filter o preds = true
      · simp [api_first, api_filter, List.filter_cons, h]
      · rw [Bool.not_eq_true] at h
        simp [api_first, api_filter, List.filter_cons, h, ih]

/-- Witness: `first` agrees with the head of `filter` on a concrete
department-like list with a list-valued tags attribute. -/
theorem filter_first_semantics_at :
    api_first
      [fun _ => FVal.atom (0 : Nat), fun _ => FVal.list [1, 2]]
      [("tags", (1 : Nat))] =
    (api_filter
      [fun _ => FVal.atom (0 : Nat), fun _ => FVal.list [1, 2]]
      [("tags", (1 : Nat))]).head? :=
  (filter_first_semantics
    [fun _ => FVal.atom (0 : Nat), fun _ => FVal.list [1, 2]]
    [("tags", (1 : Nat))]).2.2.2.2.2

/-! ## Lemmas about `_post_data` -/

theorem subfold_cont (key : String) (subs : List Wire) :
    subs.all Wire.isStr = true → ∀ d : String, subs ≠ [] →
      subs.foldlM (postDataSub key) ((some d : Option String), false) =
        some (some (d ++ "&" ++ joinAmp (subs.map (fun w => key ++ "[]=" ++ quoteFlat w))),
          false) := by
  induction subs with
  | nil => intro _ d hne; exact absurd rfl hne
  | cons w rest ih =>
    intro hall d _
    cases w with
    | list ws => simp [Wire.isStr] at hall
    | str s =>
      have hrest : rest.all Wire.isStr = true := by
        simp only [List.all_cons, Bool.and_eq_true] at hall
        exact hall.2
      cases rest with
      | nil =>
        simp [List.foldlM, postDataSub, quoteWire, showData, joinAmp, quoteFlat,
          String.append_assoc]
      | cons w2 rest2 =>
        have hih := ih hrest (d ++ "&" ++ key ++ "[]=" ++ quote s) (by simp)
        rw [List.foldlM_cons]
        have hstep : postDataSub key ((some d : Option String), false) (.str s) =
            some (some (d ++ "&" ++ key ++ "[]=" ++ quote s), false) := by
          simp [postDataSub, quoteWire, showData]
        rw [hstep]
        show List.foldlM (postDataSub key)
          ((some (d ++ "&" ++ key ++ "[]=" ++ quote s) : Option String), false)
          (w2 :: rest2) = _
        rw [hih]
        simp [joinAmp, quoteFlat, String.append_assoc]

theorem subfold_start (key : String) (subs : List Wire) :
    subs.all Wire.isStr = true → subs ≠ [] →
      subs.foldlM (postDataSub key) ((none : Option String), true) =
        some (some (joinAmp (subs.map (fun w => key ++ "[]=" ++ quoteFlat w))), false) := by
  intro hall hne
  cases subs with
  | nil => exact absurd rfl hne
  | cons w rest =>
    cases w with
    | list ws => simp [Wire.isStr] at hall
    | str s =>
      have hrest : rest.all Wire.isStr = true := by
        simp only [List.all_cons, Bool.and_eq_true] at hall
        exact hall.2
      cases rest with
      | nil => simp [List.foldlM, postDataSub, quoteWire, joinAmp, quoteFlat]
      | cons w2 rest2 =>
        have hih := subfold_cont key (w2 :: rest2) hrest (key ++ "[]=" ++ quote s) (by simp)
        rw [List.foldlM_cons]
        have hstep : postDataSub key ((none : Option String), true) (.str s) =
            some (some (key ++ "[]=" ++ quote s), false) := by
          simp [postDataSub, quoteWire]
        rw [hstep]
        show List.foldlM (postDataSub key)
          ((some (key ++ "[]=" ++ quote s) : Option String), false) (w2 :: rest2) = _
        rw [hih]
        simp [joinAmp, quoteFlat, String.append_assoc]

theorem postDataField_cont (key : String) (v : Wire) (d : String) (hflat : v.flat = true) :
    postDataField (some d, false) key v = some (some (d ++ "&" ++ fieldStr (key, v)), false) := by
  cases v with
  | str s => simp [postDataField, fieldStr, showData, String.append_assoc]
  | list subs =>
    cases subs with
    | nil => simp [postDataField, fieldStr, showData, String.append_assoc]
    | cons x xs =>
      have : (x :: xs).all Wire.isStr = true := hflat
      simp only [postDataField, List.isEmpty_cons, Bool.false_eq_true, if_neg]
      rw [subfold_cont key (x :: xs) this d (by simp)]
      rfl

theorem postDataField_start (key : String) (v : Wire) (hflat : v.flat = true) :
    postDataField ((none : Option String), true) key v =
      some (some (fieldStr (key, v)), false) := by
  cases v with
  | str s => simp [postDataField, fieldStr]
  | list subs =>
    cases subs with
    | nil => simp [postDataField, fieldStr]
    | cons x xs =>
      have : (x :: xs).all Wire.isStr = true := hflat
      simp only [postDataField, List.isEmpty_cons, Bool.false_eq_true, if_neg]
      rw [subfold_start key (x :: xs) this (by simp)]
      rfl

theorem fold_fields_cont (ps : List (String × Wire)) :
    ps.all (fun kv => kv.2.flat) = true → ∀ d : String, ps ≠ [] →
      ps.foldlM (fun st kv => postDataField st kv.1 kv.2)
          ((some d : Option String), false) =
        some (some (d ++ "&" ++ joinAmp (ps.map fieldStr)), false) := by
  induction ps with
  | nil => intro _ d hne; exact absurd rfl hne
  | cons kv rest ih =>
    intro hall d _
    have hkv : kv.2.flat = true := by
      simp only [List.all_cons, Bool.and_eq_true] at hall
      exact hall.1
    have hrest : rest.all (fun kv => kv.2.flat) = true := by
      simp only [List.all_cons, Bool.and_eq_true] at hall
      exact hall.2
    cases rest with
    | nil =>
      simp only [List.foldlM_cons, List.foldlM_nil]
      rw [postDataField_cont kv.1 kv.2 d hkv]
      simp [joinAmp]
    | cons kv2 rest2 =>
      have hih := ih hrest (d ++ "&" ++ fieldStr (kv.1, kv.2)) (by simp)
      rw [List.foldlM_cons, postDataField_cont kv.1 kv.2 d hkv]
      show List.foldlM (fun st kv => postDataField st kv.1 kv.2)
        ((some (d ++ "&" ++ fieldStr (kv.1, kv.2)) : Option String), false)
        (kv2 :: rest2) = _
      rw [hih]
      simp [joinAmp, String.append_assoc]

theorem post_data_nil : post_data [] = some none := rfl

theorem post_data_flat (ps : List (String × Wire))
    (hflat : ps.all (fun kv => kv.2.flat) = true) (hne : ps ≠ []) :
    post_data ps = some (some (joinAmp (ps.map fieldStr))) := by
  cases ps with
  | nil => exact absurd rfl hne
  | cons kv rest =>
    have hkv : kv.2.flat = true := by
      simp only [List.all_cons, Bool.and_eq_true] at hflat
      exact hflat.1
    have hrest : rest.all (fun kv => kv.2.flat) = true := by
      simp only [List.all_cons, Bool.and_eq_true] at hflat
      exact hflat.2
    unfold post_data
    cases rest with
    | nil =>
      simp only [List.foldlM_cons, List.foldlM_nil]
      rw [postDataField_start kv.1 kv.2 hkv]
      simp [joinAmp]
    | cons kv2 rest2 =>
      have hih := fold_fields_cont (kv2 :: rest2) hrest (fieldStr (kv.1, kv.2)) (by simp)
      rw [List.foldlM_cons, postDataField_start kv.1 kv.2 hkv]
      show Option.map Prod.fst (List.foldlM (fun st kv => postDataField st kv.1 kv.2)
        ((some (fieldStr (kv.1, kv.2)) : Option String), false) (kv2 :: rest2)) = _
      rw [hih]
      simp [joinAmp]

theorem joinAmp_cons_length (a : String) (l : List String) :
    a.length ≤ (joinAmp (a :: l)).length := by
  cases l with
  | nil => simp [joinAmp]
  | cons b rest =>
    simp only [joinAmp, String.length_append]
    omega

theorem fieldStr_length_pos (kv : String × Wire) : 0 < (fieldStr kv).length := by
  obtain ⟨k, v⟩ := kv
  cases v with
  | str s =>
    simp only [fieldStr, String.length_append]
    have : 0 < ("=" : String).length := by decide
    omega
  | list subs =>
    cases subs with
    | nil =>
      simp only [fieldStr, String.length_append]
      have : 0 < ("[]=" : String).length := by decide
      omega
    | cons x xs =>
      have h := joinAmp_cons_length (k ++ "[]=" ++ quoteFlat x)
        ((xs.map (fun w => k ++ "[]=" ++ quoteFlat w)))
      have h2 : 0 < (k ++ "[]=" ++ quoteFlat x).length := by
        simp only [String.length_append]
        have : 0 < ("[]=" : String).length := by decide
        omega
      show 0 < (joinAmp (((x :: xs).map (fun w => k ++ "[]=" ++ quoteFlat w)))).length
      simp only [List.map_cons]
      omega

theorem joinAmp_fields_ne_empty (ps : List (String × Wire)) (hne : ps ≠ []) :
    joinAmp (ps.map fieldStr) ≠ "" := by
  cases ps with
  | nil => exact absurd rfl hne
  | cons kv rest =>
    intro h
    have hlen := congrArg String.length h
    have h1 := fieldStr_length_pos kv
    have h2 := joinAmp_cons_length (fieldStr kv) (rest.map fieldStr)
    simp only [List.map_cons] at hlen
    rw [hlen] at h2
    simp at h2
    omega

/-- C4: the form encoder emits `key=value` for scalar fields,
`key[]=value` repeated per element for non-empty list fields, a single
`key[]=` for empty list fields, joins fields with `&` with no leading
separator in mapping order, and in particular encodes the single mapping
of `tags` to the empty list as exactly `tags[]=`. -/
theorem post_data_encoding (ps : List (String × Wire))
    (hflat : ps.all (fun kv => kv.2.flat) = true) :
    post_data ps =
      some (if ps.isEmpty then none else some (joinAmp (ps.map fieldStr))) ∧
    (∀ k s, fieldStr (k, .str s) = k ++ "=" ++ quote s) ∧
    (∀ k, fieldStr (k, .list []) = k ++ "[]=") ∧
    (∀ k (x : Wire) xs, fieldStr (k, .list (x :: xs)) =
      joinAmp ((x :: xs).map (fun w => k ++ "[]=" ++ quoteFlat w))) ∧
    post_data [("tags", .list [])] = some (some "tags[]=") := by
  refine ⟨?_, fun _ _ => rfl, fun _ => rfl, fun _ _ _ => rfl, by rfl⟩
  cases ps with
  | nil => rfl
  | cons kv rest =>
    rw [post_data_flat (kv :: rest) hflat (by simp)]
    rfl

/-- Witness for the form-encoder claim at a concrete mapping with a
scalar field and a two-element list field. -/
theorem post_data_encoding_at :
    (([("a", Wire.str "1"), ("tags", Wire.list [.str "x", .str "y"])] :
        List (String × Wire)).all (fun kv => kv.2.flat) = true) ∧
    post_data [("a", Wire.str "1"), ("tags", Wire.list [.str "x", .str "y"])] =
      some (some (joinAmp
        ([("a", Wire.str "1"), ("tags", Wire.list [.str "x", .str "y"])].map fieldStr))) := by
  refine ⟨by decide, ?_⟩
  have h := (post_data_encoding
    [("a", Wire.str "1"), ("tags", Wire.list [.str "x", .str "y"])] (by decide)).1
  simpa using h

/-! ## The GET query string and the signature -/

theorem sanitize_isStr (v : Value) (h : v.isList = false) : (sanitize v).isStr = true := by
  cases v with
  | null => rfl
  | forever => rfl
  | bool b => cases b <;> rfl
  | date _ => rfl
  | str _ => rfl
  | int _ => rfl
  | list xs => simp [Value.isList] at h

theorem sanitize_flat (v : Value) (h : v.paramFlat = true) : (sanitize v).flat = true := by
  cases v with
  | null => rfl
  | forever => rfl
  | bool b => cases b <;> rfl
  | date _ => rfl
  | str _ => rfl
  | int _ => rfl
  | list xs =>
    show (sanitizeElems xs).all Wire.isStr = true
    rw [sanitizeElems_eq_filter, List.all_eq_true]
    intro w hw
    obtain ⟨x, hx, rfl⟩ := List.mem_map.mp hw
    have hx2 : x ∈ xs := List.mem_of_mem_filter hx
    have hxf : x.isList = false := by
      have := List.all_eq_true.mp h x hx2
      simpa using this
    exact sanitize_isStr x hxf

theorem sanitize_parameters_flat (ps : List (String × Value))
    (h : ps.all (fun kv => kv.2.paramFlat) = true) :
    (sanitize_parameters ps).all (fun kv => kv.2.flat) = true := by
  rw [List.all_eq_true]
  intro kv hkv
  obtain ⟨kv0, hkv0, rfl⟩ := List.mem_map.mp hkv
  exact sanitize_flat kv0.2 (List.all_eq_true.mp h kv0 hkv0)

/-- C2: a GET request's URL is the api_url followed by `?e=` and the
percent-encoded controller, then `&apikey=`, `&salt=`, `&signature=`
with the key, the fresh decimal salt, and the base64 HMAC signature;
sanitized, form-encoded parameters are appended after one more `&`
exactly when at least one parameter is supplied.  The Content-length
header carries the encoded length, and no body is transmitted. -/
theorem request_get_query (api : KayakoAPI) (controller : String)
    (ps : List (String × Value)) (r : Nat)
    (hflat : ps.all (fun kv => kv.2.paramFlat) = true) :
    api.request controller "GET" ps r = .ok
      { method := "GET",
        url := api.api_url ++ "?e=" ++ quote controller ++ "&apikey=" ++ api.api_key ++
          "&salt=" ++ Nat.repr r ++ "&signature=" ++
          base64Encode (hmacSha256 (asciiBytes api.secret_key) (asciiBytes (Nat.repr r))) ++
          (if ps.isEmpty then "" else
            "&" ++ joinAmp ((sanitize_parameters ps).map fieldStr)),
        contentLength := if ps.isEmpty then 0
          else (joinAmp ((sanitize_parameters ps).map fieldStr)).length,
        body := none } := by
  cases ps with
  | nil =>
    simp [KayakoAPI.request, dataTruthy, contentLengthOf, generate_signature]
  | cons kv rest =>
    have hne : sanitize_parameters (kv :: rest) ≠ [] := by simp [sanitize_parameters]
    have hfl := sanitize_parameters_flat (kv :: rest) hflat
    have hpd := post_data_flat (sanitize_parameters (kv :: rest)) hfl hne
    have hstr := joinAmp_fields_ne_empty (sanitize_parameters (kv :: rest)) hne
    unfold KayakoAPI.request
    rw [if_pos rfl]
    have hmatch : (if (kv :: rest).isEmpty then some none
        else post_data (sanitize_parameters (kv :: rest))) =
        some (some (joinAmp ((sanitize_parameters (kv :: rest)).map fieldStr))) := by
      rw [if_neg (by simp), hpd]
    rw [hmatch]
    have htr : dataTruthy (some (joinAmp ((sanitize_parameters (kv :: rest)).map fieldStr)))
        = true := by
      simp [dataTruthy, hstr]
    simp only [htr, if_pos, showData, contentLengthOf, generate_signature,
      List.isEmpty_cons, Bool.false_eq_true, if_neg, if_true]
    simp [String.append_assoc, bne_iff_ne, hstr]

/-- Witness for the GET query-string claim at a concrete client, with
one supplied parameter. -/
theorem request_get_query_at :
    (([("marker", Value.int 1)] : List (String × Value)).all
      (fun kv => kv.2.paramFlat) = true) ∧
    apiEx.request "/Base/User" "GET" [("marker", Value.int 1)] 7 = .ok
      { method := "GET",
        url := apiEx.api_url ++ "?e=" ++ quote "/Base/User" ++ "&apikey=" ++ apiEx.api_key ++
          "&salt=" ++ Nat.repr 7 ++ "&signature=" ++
          base64Encode (hmacSha256 (asciiBytes apiEx.secret_key) (asciiBytes (Nat.repr 7))) ++
          (if ([("marker", Value.int 1)] : List (String × Value)).isEmpty then "" else
            "&" ++ joinAmp ((sanitize_parameters [("marker", Value.int 1)]).map fieldStr)),
        contentLength := if ([("marker", Value.int 1)] : List (String × Value)).isEmpty then 0
          else (joinAmp ((sanitize_parameters [("marker", Value.int 1)]).map fieldStr)).length,
        body := none } :=
  ⟨by decide, request_get_query apiEx "/Base/User" [("marker", Value.int 1)] 7 (by decide)⟩

/-- C3: the signature generator returns the decimal string of the 32-bit
random draw as the salt, together with the base64 HMAC-SHA256 of the
salt bytes under the secret-key bytes; the signature is a function of
the key and salt only, and `_request` derives the salt of each call from
that call's own fresh draw. -/
theorem generate_signature_spec (key : String) (r : Nat)
    (hr : r < 2 ^ 32) (hkey : isAsciiString key = true) :
    (generate_signature key r).1 = Nat.repr r ∧
    (∃ n : Nat, n < 2 ^ 32 ∧ (generate_signature key r).1 = Nat.repr n) ∧
    (generate_signature key r).2 =
      base64Encode (hmacSha256 (asciiBytes key) (asciiBytes (Nat.repr r))) ∧
    (∀ (key2 : String) (r2 : Nat), Nat.repr r2 = Nat.repr r → key2 = key →
      generate_signature key2 r2 = generate_signature key r) ∧
    (∀ api : KayakoAPI, api.secret_key = key → ∀ c : String,
      api.request c "DELETE" [] r = .ok
        { method := "DELETE",
          url := api.api_url ++ "?e=" ++ quote c ++ "&apikey=" ++ api.api_key ++
            "&salt=" ++ Nat.repr r ++ "&signature=" ++
            base64Encode (hmacSha256 (asciiBytes key) (asciiBytes (Nat.repr r))),
          contentLength := 0, body := none }) := by
  refine ⟨rfl, ⟨r, hr, rfl⟩, rfl, ?_, ?_⟩
  · intro key2 r2 hsalt hk
    subst hk
    unfold generate_signature
    rw [hsalt]
  · intro api hk c
    subst hk
    unfold KayakoAPI.request
    rw [if_neg (by decide), if_neg (by decide), if_pos rfl]
    have h0 : post_data (sanitize_parameters ([] : List (String × Value))) = some none := rfl
    rw [h0]
    simp [generate_signature, contentLengthOf]

/-- Witness for the signature claim at a concrete key and draw. -/
theorem generate_signature_spec_at :
    (5 < 2 ^ 32 ∧ isAsciiString "secret" = true) ∧
    (generate_signature "secret" 5).1 = Nat.repr 5 ∧
    (generate_signature "secret" 5).2 =
      base64Encode (hmacSha256 (asciiBytes "secret") (asciiBytes (Nat.repr 5))) :=
  ⟨⟨by decide, by decide⟩,
   (generate_signature_spec "secret" 5 (by decide) (by decide)).1,
   (generate_signature_spec "secret" 5 (by decide) (by decide)).2.2.1⟩

end Kayako
